import Mathlib

/-!
Verification of the NightCatWatermark core against its specification.

The development shallowly embeds the computational parts of the repository:

* `app/core/blind.py` — the bit-protocol codec
  (`BlindWatermarkerAdapter._text_to_bits`, `._bits_to_text`,
  `._get_image_capacity`, `.get_max_text_length`, `.embed`);
* `app/core/visible.py` — the tiling compositor's step arithmetic and the
  input validation of `VisibleWatermarker.process` /
  `.process_image_object`;
* `app/workers/preview_worker.py` — the proxy cache (`_get_cached_proxy`),
  the preview parameter rescaling (`PreviewWorker.run`) and the debouncer
  (`PreviewDebouncer`).

Texts are modelled as lists of Unicode scalar values, byte strings as lists
of naturals below 256, and bit buffers as lists of naturals.  Python's
`str.encode("utf-8")` / `bytes.decode("utf-8")` pair is modelled explicitly
by `utf8Encode` / `utf8Decode` below.
-/

namespace NightCat

/-! ### UTF-8 model -/

/-- A Unicode scalar value: code points excluding the surrogate range,
exactly the values Python's `str.encode("utf-8")` accepts. -/
def ValidScalar (c : Nat) : Prop := c < 0xD800 ∨ (0xE000 ≤ c ∧ c < 0x110000)

instance (c : Nat) : Decidable (ValidScalar c) := by unfold ValidScalar; infer_instance

/-- UTF-8 encoding of one Unicode scalar value (the byte sequence Python's
`str.encode("utf-8")` produces for that code point). -/
def utf8EncodeChar (c : Nat) : List Nat :=
  if c < 0x80 then [c]
  else if c < 0x800 then [0xC0 + c / 64, 0x80 + c % 64]
  else if c < 0x10000 then [0xE0 + c / 4096, 0x80 + c / 64 % 64, 0x80 + c % 64]
  else [0xF0 + c / 262144, 0x80 + c / 4096 % 64, 0x80 + c / 64 % 64, 0x80 + c % 64]

/-- UTF-8 encoding of a text (a list of Unicode scalar values), modelling
Python's `str.encode("utf-8")`. -/
def utf8Encode (s : List Nat) : List Nat := (s.map utf8EncodeChar).flatten

/-- Decode one UTF-8 sequence from the front of a byte list, returning the
scalar value and the remaining bytes; `none` on any malformed prefix.
Follows the strict rules of Python's `bytes.decode("utf-8")`: continuation
bytes must be `0x80..0xBF`; overlong forms, surrogates and code points above
`U+10FFFF` are rejected. -/
def utf8Step : List Nat → Option (Nat × List Nat)
  | [] => none
  | b0 :: rest =>
    if b0 < 0x80 then some (b0, rest)
    else if b0 < 0xC0 then none
    else if b0 < 0xE0 then
      match rest with
      | [] => none
      | b1 :: rest1 =>
        if 0x80 ≤ b1 ∧ b1 < 0xC0 then
          if (b0 - 0xC0) * 64 + (b1 - 0x80) < 0x80 then none
          else some ((b0 - 0xC0) * 64 + (b1 - 0x80), rest1)
        else none
    else if b0 < 0xF0 then
      match rest with
      | b1 :: b2 :: rest2 =>
        if (0x80 ≤ b1 ∧ b1 < 0xC0) ∧ (0x80 ≤ b2 ∧ b2 < 0xC0) then
          if (b0 - 0xE0) * 4096 + (b1 - 0x80) * 64 + (b2 - 0x80) < 0x800 then none
          else if 0xD800 ≤ (b0 - 0xE0) * 4096 + (b1 - 0x80) * 64 + (b2 - 0x80) ∧
              (b0 - 0xE0) * 4096 + (b1 - 0x80) * 64 + (b2 - 0x80) < 0xE000 then none
          else some ((b0 - 0xE0) * 4096 + (b1 - 0x80) * 64 + (b2 - 0x80), rest2)
        else none
      | _ => none
    else if b0 < 0xF5 then
      match rest with
      | b1 :: b2 :: b3 :: rest3 =>
        if (0x80 ≤ b1 ∧ b1 < 0xC0) ∧ (0x80 ≤ b2 ∧ b2 < 0xC0) ∧ (0x80 ≤ b3 ∧ b3 < 0xC0) then
          if (b0 - 0xF0) * 262144 + (b1 - 0x80) * 4096 + (b2 - 0x80) * 64 + (b3 - 0x80)
              < 0x10000 then none
          else if 0x110000 ≤
              (b0 - 0xF0) * 262144 + (b1 - 0x80) * 4096 + (b2 - 0x80) * 64 + (b3 - 0x80) then
            none
          else some
            ((b0 - 0xF0) * 262144 + (b1 - 0x80) * 4096 + (b2 - 0x80) * 64 + (b3 - 0x80), rest3)
        else none
      | _ => none
    else none

/-- Fuel-driven UTF-8 decoding loop; one unit of fuel is spent per decoded
scalar, so `bs.length` fuel always suffices. -/
def utf8DecodeGo : Nat → List Nat → Option (List Nat)
  | _, [] => some []
  | 0, _ :: _ => none
  | fuel + 1, b0 :: rest =>
    match utf8Step (b0 :: rest) with
    | none => none
    | some (c, rest1) => (utf8DecodeGo fuel rest1).map (c :: ·)

/-- UTF-8 decode a byte list, modelling Python's `bytes.decode("utf-8")`:
`none` corresponds to a `UnicodeDecodeError`. -/
def utf8Decode (bs : List Nat) : Option (List Nat) := utf8DecodeGo bs.length bs

lemma utf8EncodeChar_length_pos (c : Nat) : 0 < (utf8EncodeChar c).length := by
  unfold utf8EncodeChar
  split_ifs <;> simp

lemma utf8EncodeChar_lt_256 (c : Nat) (hc : ValidScalar c) :
    ∀ b ∈ utf8EncodeChar c, b < 256 := by
  have hc' : c < 0x110000 := by rcases hc with h | h <;> omega
  unfold utf8EncodeChar
  split_ifs <;> intro b hb <;> simp only [List.mem_cons, List.mem_singleton,
    List.not_mem_nil, or_false] at hb
  · omega
  · rcases hb with rfl | rfl <;> omega
  · rcases hb with rfl | rfl | rfl <;> omega
  · rcases hb with rfl | rfl | rfl | rfl <;> omega

lemma utf8Step_encodeChar (c : Nat) (hc : ValidScalar c) (bs : List Nat) :
    utf8Step (utf8EncodeChar c ++ bs) = some (c, bs) := by
  have hc' : c < 0x110000 := by rcases hc with h | h <;> omega
  by_cases h1 : c < 0x80
  · simp only [utf8EncodeChar, if_pos h1, List.cons_append, List.nil_append]
    unfold utf8Step
    dsimp only
    rw [if_pos h1]
  · by_cases h2 : c < 0x800
    · simp only [utf8EncodeChar, if_neg h1, if_pos h2, List.cons_append, List.nil_append]
      unfold utf8Step
      dsimp only
      rw [if_neg (by omega), if_neg (by omega), if_pos (by omega : 0xC0 + c / 64 < 0xE0),
        if_pos (by omega), if_neg (by omega)]
      have e : (0xC0 + c / 64 - 0xC0) * 64 + (0x80 + c % 64 - 0x80) = c := by omega
      rw [e]
    · by_cases h3 : c < 0x10000
      · have hsur : ¬ (0xD800 ≤ c ∧ c < 0xE000) := by
          rcases hc with h | h <;> omega
        simp only [utf8EncodeChar, if_neg h1, if_neg h2, if_pos h3, List.cons_append,
          List.nil_append]
        unfold utf8Step
        dsimp only
        rw [if_neg (by omega), if_neg (by omega), if_neg (by omega),
          if_pos (by omega : 0xE0 + c / 4096 < 0xF0), if_pos (by omega)]
        have e : (0xE0 + c / 4096 - 0xE0) * 4096 + (0x80 + c / 64 % 64 - 0x80) * 64 +
            (0x80 + c % 64 - 0x80) = c := by omega
        rw [e, if_neg (by omega), if_neg hsur]
      · simp only [utf8EncodeChar, if_neg h1, if_neg h2, if_neg h3, List.cons_append,
          List.nil_append]
        unfold utf8Step
        dsimp only
        rw [if_neg (by omega), if_neg (by omega), if_neg (by omega), if_neg (by omega),
          if_pos (by omega : 0xF0 + c / 262144 < 0xF5), if_pos (by omega)]
        have e : (0xF0 + c / 262144 - 0xF0) * 262144 + (0x80 + c / 4096 % 64 - 0x80) * 4096 +
            (0x80 + c / 64 % 64 - 0x80) * 64 + (0x80 + c % 64 - 0x80) = c := by omega
        rw [e, if_neg (by omega), if_neg (by omega)]

lemma utf8Step_length {bs : List Nat} {c : Nat} {rest : List Nat}
    (h : utf8Step bs = some (c, rest)) : rest.length < bs.length := by
  cases bs with
  | nil => simp [utf8Step] at h
  | cons b0 tl =>
    rcases tl with _ | ⟨b1, _ | ⟨b2, _ | ⟨b3, tl3⟩⟩⟩ <;>
      (unfold utf8Step at h
       dsimp only at h
       split_ifs at h <;> simp_all <;> omega)

lemma utf8DecodeGo_nil (fuel : Nat) : utf8DecodeGo fuel [] = some [] := by
  cases fuel <;> rfl

lemma utf8DecodeGo_fuel : ∀ (fuel1 : Nat) (bs : List Nat) (fuel2 : Nat),
    bs.length ≤ fuel1 → bs.length ≤ fuel2 →
    utf8DecodeGo fuel1 bs = utf8DecodeGo fuel2 bs := by
  intro fuel1
  induction fuel1 with
  | zero =>
    intro bs fuel2 h1 _
    have : bs = [] := List.eq_nil_of_length_eq_zero (by omega)
    subst this
    rw [utf8DecodeGo_nil, utf8DecodeGo_nil]
  | succ f ih =>
    intro bs fuel2 h1 h2
    cases bs with
    | nil => rw [utf8DecodeGo_nil, utf8DecodeGo_nil]
    | cons b0 tl =>
      cases fuel2 with
      | zero => simp at h2
      | succ g =>
        rw [utf8DecodeGo, utf8DecodeGo]
        cases hstep : utf8Step (b0 :: tl) with
        | none => rfl
        | some p =>
          obtain ⟨c, rest1⟩ := p
          have hlen := utf8Step_length hstep
          simp only [List.length_cons] at hlen h1 h2
          simp only
          rw [ih rest1 g (by omega) (by omega)]

lemma utf8DecodeGo_cons_step (fuel : Nat) (bs : List Nat) (c : Nat) (rest : List Nat)
    (h : utf8Step bs = some (c, rest)) :
    utf8DecodeGo (fuel + 1) bs = (utf8DecodeGo fuel rest).map (c :: ·) := by
  cases bs with
  | nil => simp [utf8Step] at h
  | cons b0 tl =>
    rw [utf8DecodeGo, h]

lemma utf8Decode_encodeChar_append (c : Nat) (hc : ValidScalar c) (bs : List Nat) :
    utf8Decode (utf8EncodeChar c ++ bs) = (utf8Decode bs).map (c :: ·) := by
  have hpos := utf8EncodeChar_length_pos c
  have hlen : (utf8EncodeChar c ++ bs).length =
      ((utf8EncodeChar c).length - 1 + bs.length) + 1 := by
    simp only [List.length_append]; omega
  unfold utf8Decode
  rw [hlen, utf8DecodeGo_cons_step _ _ _ _ (utf8Step_encodeChar c hc bs)]
  rw [utf8DecodeGo_fuel _ bs bs.length (by omega) (by omega)]

/-- Round trip: UTF-8 decoding inverts UTF-8 encoding on every text made of
valid Unicode scalar values. -/
lemma utf8Decode_utf8Encode (s : List Nat) (hs : ∀ c ∈ s, ValidScalar c) :
    utf8Decode (utf8Encode s) = some s := by
  induction s with
  | nil => rfl
  | cons c cs ih =>
    have hc : ValidScalar c := hs c (by simp)
    have hcs : ∀ x ∈ cs, ValidScalar x := fun x hx => hs x (by simp [hx])
    have : utf8Encode (c :: cs) = utf8EncodeChar c ++ utf8Encode cs := by
      simp [utf8Encode]
    rw [this, utf8Decode_encodeChar_append c hc, ih hcs]
    rfl

/-! ### Bit-protocol codec (`app/core/blind.py`, `BlindWatermarkerAdapter`) -/

/-- MAGIC_BYTES = b"NCAT" (`blind.py` line 42), as byte values. -/
def MAGIC_BYTES : List Nat := [78, 67, 65, 84]

/-- MAX_TEXT_BYTES = 500 (`blind.py` line 50). -/
def MAX_TEXT_BYTES : Nat := 500

/-- HEADER_SIZE = MAGIC_SIZE + LENGTH_SIZE = 64 bits (`blind.py` line 47). -/
def HEADER_SIZE : Nat := 64

/-- Bits of one byte, most significant first: the inner loop of
`_text_to_bits` (`blind.py` lines 112-114, `(byte >> i) & 1` for
`i = 7, ..., 0`). -/
def byteToBits (b : Nat) : List Nat :=
  [b / 128 % 2, b / 64 % 2, b / 32 % 2, b / 16 % 2, b / 8 % 2, b / 4 % 2, b / 2 % 2, b % 2]

/-- Bits of a byte string, each byte expanded most-significant-bit first
(the full bit-building loop of `_text_to_bits`). -/
def bytesToBits (bs : List Nat) : List Nat := (bs.map byteToBits).flatten

/-- Value of a bit list read as a big-endian binary numeral: models
`int("".join(map(str, bits)), 2)` in `_bits_to_text` for 0/1 bits. -/
def bitsToNat (bits : List Nat) : Nat := bits.foldl (fun a b => a * 2 + b) 0

/-- Regroup a bit list into bytes, eight bits at a time (the
`range(0, n, 8)` reassembly loops of `_bits_to_text`); an incomplete
trailing group is dropped (the function is only applied to slices whose
length is a multiple of eight). -/
def bitsToBytes : List Nat → List Nat
  | b0 :: b1 :: b2 :: b3 :: b4 :: b5 :: b6 :: b7 :: rest =>
    bitsToNat [b0, b1, b2, b3, b4, b5, b6, b7] :: bitsToBytes rest
  | _ => []

/-- Big-endian 4-byte encoding of a natural number: models
`data_length.to_bytes(4, byteorder="big")` (`blind.py` line 107). -/
def natToBytes4 (n : Nat) : List Nat :=
  [n / 16777216 % 256, n / 65536 % 256, n / 256 % 256, n % 256]

/-- Big-endian value of a byte string: models
`int.from_bytes(length_bytes, byteorder="big")` (`blind.py` line 153). -/
def beBytesToNat (bs : List Nat) : Nat := bs.foldl (fun a b => a * 256 + b) 0

/-- Model of `BlindWatermarkerAdapter._text_to_bits` (`blind.py` lines
91-116): build MAGIC ++ 4-byte big-endian length ++ UTF-8 data and expand
every byte to its 8 bits, most significant first. -/
def text_to_bits (text : List Nat) : List Nat :=
  let data_bytes := utf8Encode text
  bytesToBits (MAGIC_BYTES ++ natToBytes4 data_bytes.length ++ data_bytes)

/-- The distinct failure modes of `_bits_to_text`, one per `raise` site
(`blind.py` lines 131-181). -/
inductive DecodeError : Type
  /-- Message "Insufficient data: missing header" (line 132). -/
  | missingHeader : DecodeError
  /-- Message "Invalid watermark data. The password may be incorrect or the image
  may not contain a watermark." (lines 142-145), the wrong-password
  signal. -/
  | invalidMagic : DecodeError
  /-- Message "Invalid data length: ..." (lines 157-160). -/
  | invalidLength (n : Nat) : DecodeError
  /-- Message "Data truncated: expected ... bits, got ..." (lines 165-167). -/
  | truncated (expected got : Nat) : DecodeError
  /-- Message "Failed to decode text: ..." wrapping a UnicodeDecodeError
  (lines 178-181). -/
  | utf8Error : DecodeError
deriving DecidableEq

/-- Model of `BlindWatermarkerAdapter._bits_to_text` (`blind.py` lines
118-181), step by step in source order: header-length check, magic check,
length-field extraction and sanity check, truncation check, data
reassembly, UTF-8 decode. -/
def bits_to_text (bits : List Nat) : Except DecodeError (List Nat) :=
  if bits.length < HEADER_SIZE then .error .missingHeader
  else
    let magic_bytes := bitsToBytes (bits.take 32)
    if magic_bytes ≠ MAGIC_BYTES then .error .invalidMagic
    else
      let data_length := beBytesToNat (bitsToBytes ((bits.drop 32).take 32))
      if data_length = 0 ∨ MAX_TEXT_BYTES < data_length then
        .error (.invalidLength data_length)
      else
        let expected_total_bits := HEADER_SIZE + data_length * 8
        if bits.length < expected_total_bits then
          .error (.truncated expected_total_bits bits.length)
        else
          let data_bytes := bitsToBytes ((bits.drop HEADER_SIZE).take (data_length * 8))
          match utf8Decode data_bytes with
          | some s => .ok s
          | none => .error .utf8Error

lemma byteToBits_length (b : Nat) : (byteToBits b).length = 8 := rfl

lemma bytesToBits_append (xs ys : List Nat) :
    bytesToBits (xs ++ ys) = bytesToBits xs ++ bytesToBits ys := by
  simp [bytesToBits]

lemma bytesToBits_length (bs : List Nat) : (bytesToBits bs).length = 8 * bs.length := by
  induction bs with
  | nil => rfl
  | cons b tl ih =>
    simp only [bytesToBits, List.map_cons, List.flatten_cons, List.length_append,
      byteToBits_length, List.length_cons] at ih ⊢
    omega

lemma bitsToBytes_byteToBits (b : Nat) (hb : b < 256) (rest : List Nat) :
    bitsToBytes (byteToBits b ++ rest) = b :: bitsToBytes rest := by
  simp only [byteToBits, List.cons_append, List.nil_append, bitsToBytes]
  have : bitsToNat [b / 128 % 2, b / 64 % 2, b / 32 % 2, b / 16 % 2, b / 8 % 2,
      b / 4 % 2, b / 2 % 2, b % 2] = b := by
    simp only [bitsToNat, List.foldl]
    omega
  rw [this]
  rfl

lemma bitsToBytes_bytesToBits_append (bs : List Nat) (h : ∀ b ∈ bs, b < 256)
    (rest : List Nat) :
    bitsToBytes (bytesToBits bs ++ rest) = bs ++ bitsToBytes rest := by
  induction bs with
  | nil => simp [bytesToBits]
  | cons b tl ih =>
    have hb : b < 256 := h b (by simp)
    have htl : ∀ x ∈ tl, x < 256 := fun x hx => h x (by simp [hx])
    simp only [bytesToBits, List.map_cons, List.flatten_cons, List.append_assoc]
    rw [bitsToBytes_byteToBits b hb]
    simp only [bytesToBits] at ih
    rw [ih htl]
    rfl

lemma bitsToBytes_bytesToBits (bs : List Nat) (h : ∀ b ∈ bs, b < 256) :
    bitsToBytes (bytesToBits bs) = bs := by
  have := bitsToBytes_bytesToBits_append bs h []
  simpa [bytesToBits, show bitsToBytes [] = [] from rfl] using this

lemma beBytesToNat_natToBytes4 (n : Nat) (h : n < 4294967296) :
    beBytesToNat (natToBytes4 n) = n := by
  simp only [natToBytes4, beBytesToNat, List.foldl]
  omega

lemma natToBytes4_lt_256 (n : Nat) : ∀ b ∈ natToBytes4 n, b < 256 := by
  intro b hb
  simp only [natToBytes4, List.mem_cons, List.mem_singleton, List.not_mem_nil,
    or_false] at hb
  rcases hb with rfl | rfl | rfl | rfl <;> omega

lemma utf8Encode_lt_256 (s : List Nat) (hs : ∀ c ∈ s, ValidScalar c) :
    ∀ b ∈ utf8Encode s, b < 256 := by
  intro b hb
  simp only [utf8Encode, List.mem_flatten, List.mem_map] at hb
  obtain ⟨l, ⟨c, hc, rfl⟩, hbl⟩ := hb
  exact utf8EncodeChar_lt_256 c (hs c hc) b hbl

/-- Master round-trip lemma: decoding an encoded payload, possibly followed
by arbitrary surplus bits, recovers the original text. -/
lemma bits_to_text_text_to_bits_append (s : List Nat) (extra : List Nat)
    (hv : ∀ c ∈ s, ValidScalar c)
    (hpos : 0 < (utf8Encode s).length)
    (hmax : (utf8Encode s).length ≤ 500) :
    bits_to_text (text_to_bits s ++ extra) = .ok s := by
  set data := utf8Encode s with hdata
  set L := data.length with hL
  have hdlt : ∀ b ∈ data, b < 256 := by rw [hdata]; exact utf8Encode_lt_256 s hv
  have hbits : text_to_bits s ++ extra =
      bytesToBits MAGIC_BYTES ++ (bytesToBits (natToBytes4 L) ++ (bytesToBits data ++ extra)) := by
    simp [text_to_bits, bytesToBits_append, ← hdata, ← hL, List.append_assoc]
  have hmlen : (bytesToBits MAGIC_BYTES).length = 32 := by rfl
  have hllen : (bytesToBits (natToBytes4 L)).length = 32 := by
    rw [bytesToBits_length]; rfl
  have hdblen : (bytesToBits data).length = L * 8 := by
    rw [bytesToBits_length]; omega
  rw [hbits, bits_to_text]
  rw [if_neg (by
    simp only [List.length_append, hmlen, hllen, hdblen, HEADER_SIZE]
    omega)]
  dsimp only
  rw [List.take_left' hmlen, bitsToBytes_bytesToBits MAGIC_BYTES (by decide)]
  rw [if_neg (by simp)]
  rw [List.drop_left' hmlen, List.take_left' hllen,
    bitsToBytes_bytesToBits (natToBytes4 L) (natToBytes4_lt_256 L),
    beBytesToNat_natToBytes4 L (by omega)]
  rw [if_neg (by
    simp only [MAX_TEXT_BYTES]
    omega)]
  rw [if_neg (by
    simp only [List.length_append, hmlen, hllen, hdblen, HEADER_SIZE]
    omega)]
  have hdrop64 : (bytesToBits MAGIC_BYTES ++
      (bytesToBits (natToBytes4 L) ++ (bytesToBits data ++ extra))).drop HEADER_SIZE =
      bytesToBits data ++ extra := by
    have h64 : HEADER_SIZE = 32 + 32 := rfl
    rw [h64, ← List.drop_drop, List.drop_left' hmlen, List.drop_left' hllen]
  rw [hdrop64, List.take_left' hdblen, bitsToBytes_bytesToBits data hdlt]
  have hdec : utf8Decode data = some s := by
    rw [hdata]; exact utf8Decode_utf8Encode s hv
  rw [hdec]

/-! ### Parsed-header helpers for stating the decode error conditions -/

/-- The magic bytes `_bits_to_text` reads from the first 32 bits
(`blind.py` lines 134-139). -/
def parsedMagic (bits : List Nat) : List Nat := bitsToBytes (bits.take 32)

/-- The length field `_bits_to_text` reads from bits 32..63
(`blind.py` lines 147-153). -/
def parsedLength (bits : List Nat) : Nat :=
  beBytesToNat (bitsToBytes ((bits.drop 32).take 32))

/-- The data bytes `_bits_to_text` reassembles from the payload bits
(`blind.py` lines 169-176). -/
def parsedData (bits : List Nat) : List Nat :=
  bitsToBytes ((bits.drop 64).take (parsedLength bits * 8))

/-! ### Capacity arithmetic and embed (`blind.py`) -/

/-- Model of `BlindWatermarkerAdapter._get_image_capacity` (`blind.py`
lines 72-89): `capacity = (width * height) // 64`. -/
def get_image_capacity (width height : Nat) : Nat := width * height / 64

/-- Model of `BlindWatermarkerAdapter.get_max_text_length` (`blind.py`
lines 207-226): `available_bits = capacity_bits - HEADER_SIZE` as a Python
(signed) integer, `max_from_image = max(0, available_bits // 8)` with
Python floor division, then capped at MAX_TEXT_BYTES. -/
def get_max_text_length (width height : Nat) : Nat :=
  (min (max 0 (Int.fdiv ((get_image_capacity width height : Int) - 64) 8)) 500).toNat

/-- The rejection reasons of `embed` that the model tracks (`blind.py`
lines 256-278). -/
inductive EmbedError : Type
  | emptyPassword : EmbedError
  | emptyText : EmbedError
  /-- Message "Text too long: ... bytes (max: 500)" (lines 263-266). -/
  | textTooLong : EmbedError
  /-- Message "Text too long for this image: ..." (lines 273-278). -/
  | capacityExceeded : EmbedError
deriving DecidableEq

/-- Outcome of an embed request: either rejected by one of the validation
checks, or handed to the external frequency-domain codec with the encoded
bit payload. -/
inductive EmbedOutcome : Type
  | rejected (e : EmbedError) : EmbedOutcome
  /-- The external codec `WaterMark.embed` is reached (`blind.py` lines
  293-296); the payload handed to `wm.read_wm(bits, mode="bit")` is
  recorded. -/
  | codecInvoked (bits : List Nat) : EmbedOutcome
deriving DecidableEq

/-- Model of `BlindWatermarkerAdapter.embed` (`blind.py` lines 252-298)
with the image given by its pixel dimensions.  Checks run in source order:
empty password, empty text, text over MAX_TEXT_BYTES, text over the image
capacity; only then is the external codec invoked with
`_text_to_bits(text)`.  The file-existence check and PNG conversion do not
affect the payload path and are outside the model. -/
def embed (width height : Nat) (password text : List Nat) : EmbedOutcome :=
  if password = [] then .rejected .emptyPassword
  else if text = [] then .rejected .emptyText
  else if 500 < (utf8Encode text).length then .rejected .textTooLong
  else if get_max_text_length width height < (utf8Encode text).length then
    .rejected .capacityExceeded
  else .codecInvoked (text_to_bits text)

lemma utf8Encode_length_pos (s : List Nat) (h : s ≠ []) : 0 < (utf8Encode s).length := by
  cases s with
  | nil => exact absurd rfl h
  | cons c cs =>
    have : utf8Encode (c :: cs) = utf8EncodeChar c ++ utf8Encode cs := by simp [utf8Encode]
    rw [this]
    have := utf8EncodeChar_length_pos c
    simp only [List.length_append]
    omega

lemma text_to_bits_length (s : List Nat) :
    (text_to_bits s).length = 64 + 8 * (utf8Encode s).length := by
  simp only [text_to_bits, bytesToBits_length, List.length_append]
  have h1 : MAGIC_BYTES.length = 4 := rfl
  have h2 : (natToBytes4 (utf8Encode s).length).length = 4 := rfl
  omega

lemma le_max_text_length_capacity (w h L : Nat) (hL : 1 ≤ L)
    (hle : L ≤ get_max_text_length w h) : 64 + 8 * L ≤ get_image_capacity w h := by
  unfold get_max_text_length at hle
  rw [Int.fdiv_eq_ediv _ (by norm_num)] at hle
  omega

/-- C1: for every text whose UTF-8 encoding is nonempty and at most 500
bytes long, `_bits_to_text` applied to `_text_to_bits` of the text returns
the text unchanged. -/
theorem C1_encode_decode_roundtrip (T : List Nat)
    (hv : ∀ c ∈ T, ValidScalar c)
    (hpos : 0 < (utf8Encode T).length)
    (hmax : (utf8Encode T).length ≤ 500) :
    bits_to_text (text_to_bits T) = .ok T := by
  have h := bits_to_text_text_to_bits_append T [] hv hpos hmax
  simpa using h

/-- Witness for C1 at the text "Ni" (code points 78, 105). -/
theorem C1_witness : bits_to_text (text_to_bits [78, 105]) = .ok [78, 105] :=
  C1_encode_decode_roundtrip [78, 105] (by decide) (by decide) (by decide)

/-- C9: decoding ignores surplus trailing bits: appending any extra bit
sequence to an encoded payload does not change the decoded text, because
only the first `64 + 8 * length` bits are interpreted. -/
theorem C9_trailing_bits_ignored (T E : List Nat)
    (hv : ∀ c ∈ T, ValidScalar c)
    (hpos : 0 < (utf8Encode T).length)
    (hmax : (utf8Encode T).length ≤ 500) :
    bits_to_text (text_to_bits T ++ E) = .ok T :=
  bits_to_text_text_to_bits_append T E hv hpos hmax

/-- Witness for C9 at the text "A" with three surplus bits. -/
theorem C9_witness : bits_to_text (text_to_bits [65] ++ [1, 0, 1]) = .ok [65] :=
  C9_trailing_bits_ignored [65] [1, 0, 1] (by decide) (by decide) (by decide)

/-- C2: `_bits_to_text` fails exactly under the five specified conditions,
each with its own distinct error (the magic mismatch is the dedicated
wrong-password signal and the UTF-8 failure is distinct from the header
failures), and returns the decoded text on well-formed input. -/
theorem C2_decode_error_conditions (bits : List Nat) (_hb : ∀ b ∈ bits, b < 2) :
    (bits.length < 64 → bits_to_text bits = .error .missingHeader)
    ∧ (64 ≤ bits.length → parsedMagic bits ≠ MAGIC_BYTES →
        bits_to_text bits = .error .invalidMagic)
    ∧ (64 ≤ bits.length → parsedMagic bits = MAGIC_BYTES →
        parsedLength bits = 0 ∨ 500 < parsedLength bits →
        bits_to_text bits = .error (.invalidLength (parsedLength bits)))
    ∧ (64 ≤ bits.length → parsedMagic bits = MAGIC_BYTES →
        0 < parsedLength bits → parsedLength bits ≤ 500 →
        bits.length < 64 + parsedLength bits * 8 →
        bits_to_text bits = .error (.truncated (64 + parsedLength bits * 8) bits.length))
    ∧ (64 ≤ bits.length → parsedMagic bits = MAGIC_BYTES →
        0 < parsedLength bits → parsedLength bits ≤ 500 →
        64 + parsedLength bits * 8 ≤ bits.length →
        utf8Decode (parsedData bits) = none →
        bits_to_text bits = .error .utf8Error)
    ∧ (∀ s, 64 ≤ bits.length → parsedMagic bits = MAGIC_BYTES →
        0 < parsedLength bits → parsedLength bits ≤ 500 →
        64 + parsedLength bits * 8 ≤ bits.length →
        utf8Decode (parsedData bits) = some s →
        bits_to_text bits = .ok s) := by
  refine ⟨?_, ?_, ?_, ?_, ?_, ?_⟩
  · intro hlt
    rw [bits_to_text, if_pos (by simpa [HEADER_SIZE] using hlt)]
  · intro hge hmagic
    rw [bits_to_text, if_neg (by simp [HEADER_SIZE]; omega)]
    dsimp only
    rw [if_pos (by simpa [parsedMagic] using hmagic)]
  · intro hge hmagic hlen
    rw [bits_to_text, if_neg (by simp [HEADER_SIZE]; omega)]
    dsimp only
    rw [if_neg (by simpa [parsedMagic] using hmagic)]
    rw [if_pos (by simpa [parsedLength, MAX_TEXT_BYTES] using hlen)]
    simp [parsedLength]
  · intro hge hmagic hpos hle htrunc
    rw [bits_to_text, if_neg (by simp [HEADER_SIZE]; omega)]
    dsimp only
    rw [if_neg (by simpa [parsedMagic] using hmagic)]
    rw [if_neg (by simp only [parsedLength] at hpos hle ⊢; simp [MAX_TEXT_BYTES]; omega)]
    rw [if_pos (by simp only [parsedLength] at htrunc ⊢; simpa [HEADER_SIZE] using htrunc)]
    simp [parsedLength, HEADER_SIZE]
  · intro hge hmagic hpos hle hfits hdec
    rw [bits_to_text, if_neg (by simp [HEADER_SIZE]; omega)]
    dsimp only
    rw [if_neg (by simpa [parsedMagic] using hmagic)]
    rw [if_neg (by simp only [parsedLength] at hpos hle ⊢; simp [MAX_TEXT_BYTES]; omega)]
    rw [if_neg (by simp only [parsedLength] at hfits ⊢; simp [HEADER_SIZE]; omega)]
    rw [show bitsToBytes ((bits.drop HEADER_SIZE).take
        (beBytesToNat (bitsToBytes ((bits.drop 32).take 32)) * 8)) = parsedData bits from rfl,
      hdec]
  · intro s hge hmagic hpos hle hfits hdec
    rw [bits_to_text, if_neg (by simp [HEADER_SIZE]; omega)]
    dsimp only
    rw [if_neg (by simpa [parsedMagic] using hmagic)]
    rw [if_neg (by simp only [parsedLength] at hpos hle ⊢; simp [MAX_TEXT_BYTES]; omega)]
    rw [if_neg (by simp only [parsedLength] at hfits ⊢; simp [HEADER_SIZE]; omega)]
    rw [show bitsToBytes ((bits.drop HEADER_SIZE).take
        (beBytesToNat (bitsToBytes ((bits.drop 32).take 32)) * 8)) = parsedData bits from rfl,
      hdec]

/-- Witness for C2 at a 64-bit all-zero buffer, whose magic field does not
match MAGIC_BYTES: the dedicated wrong-password error is produced. -/
theorem C2_witness :
    bits_to_text (List.replicate 64 0) = .error .invalidMagic :=
  (C2_decode_error_conditions (List.replicate 64 0) (by decide)).2.1
    (by decide) (by decide)

/-- C3: image capacity is `floor(width * height / 64)` bits and the
maximum embeddable text length is `min(floor((capacity - 64) / 8), 500)`
floored at zero (expressed below with truncated natural subtraction); in
particular a 512 by 512 image has capacity 4096 bits and maximum text
length 500 bytes. -/
theorem C3_capacity_formulas (w h : Nat) :
    get_image_capacity w h = w * h / 64
    ∧ get_max_text_length w h = min ((w * h / 64 - 64) / 8) 500
    ∧ get_image_capacity 512 512 = 4096
    ∧ get_max_text_length 512 512 = 500 := by
  refine ⟨rfl, ?_, by decide, by decide⟩
  unfold get_max_text_length get_image_capacity
  rw [Int.fdiv_eq_ediv _ (by norm_num)]
  omega

/-- C4: an embed request whose payload exceeds the image capacity or the
500-byte limit is rejected before the external codec is reached, and the
codec is invoked only when the payload fits (its bit count, 64 header bits
plus 8 bits per data byte, is at most the image capacity). -/
theorem C4_capacity_rejected_before_codec (w h : Nat) (password text : List Nat) :
    (get_max_text_length w h < (utf8Encode text).length ∨ 500 < (utf8Encode text).length →
      (∀ bits, embed w h password text ≠ .codecInvoked bits)
      ∧ (password ≠ [] → text ≠ [] →
          embed w h password text = .rejected .textTooLong ∨
          embed w h password text = .rejected .capacityExceeded))
    ∧ (∀ bits, embed w h password text = .codecInvoked bits →
        (utf8Encode text).length ≤ get_max_text_length w h
        ∧ (utf8Encode text).length ≤ 500
        ∧ bits.length = 64 + 8 * (utf8Encode text).length
        ∧ bits.length ≤ get_image_capacity w h) := by
  constructor
  · intro hover
    constructor
    · intro bits hbits
      unfold embed at hbits
      split_ifs at hbits with h1 h2 h3 h4
      all_goals simp only [reduceCtorEq, EmbedOutcome.codecInvoked.injEq] at hbits
      cases hover with
      | inl hcap => omega
      | inr hlen => omega
    · intro hpw htext
      unfold embed
      rw [if_neg hpw, if_neg htext]
      by_cases h3 : 500 < (utf8Encode text).length
      · rw [if_pos h3]
        exact Or.inl rfl
      · rw [if_neg h3, if_pos (by omega)]
        exact Or.inr rfl
  · intro bits hbits
    unfold embed at hbits
    split_ifs at hbits with h1 h2 h3 h4
    all_goals simp only [reduceCtorEq, EmbedOutcome.codecInvoked.injEq] at hbits
    have hbits' : bits = text_to_bits text := hbits.symm
    have hLpos : 0 < (utf8Encode text).length := utf8Encode_length_pos text h2
    refine ⟨by omega, by omega, ?_, ?_⟩
    · rw [hbits', text_to_bits_length]
    · rw [hbits', text_to_bits_length]
      exact le_max_text_length_capacity w h (utf8Encode text).length
        (by omega) (by omega)

/-- Witness for C4: an 8 by 8 image (capacity 1 bit) cannot hold the
one-byte text "A"; embed rejects it before the codec and never invokes
the codec on this request. -/
theorem C4_witness :
    (embed 8 8 [112] [65] ≠ .codecInvoked (text_to_bits [65]))
    ∧ (embed 8 8 [112] [65] = .rejected .textTooLong ∨
       embed 8 8 [112] [65] = .rejected .capacityExceeded) := by
  have h := (C4_capacity_rejected_before_codec 8 8 [112] [65]).1 (by decide)
  exact ⟨h.1 (text_to_bits [65]), h.2 (by decide) (by decide)⟩

/-! ### Tiling compositor step arithmetic (`app/core/visible.py`) -/

/-- Python `int()` applied to a rational: truncation toward zero. -/
def pyInt (x : ℚ) : ℤ := if 0 ≤ x then ⌊x⌋ else ⌈x⌉

/-- Model of the horizontal step computation in
`VisibleWatermarker._tile_watermark` (`visible.py` line 173):
`step_h = tile_w + int(font_size * max(0, spacing_h_ratio - 1.0))`. -/
def step_h (tile_w fontSize : ℕ) (spacingH : ℚ) : ℕ :=
  tile_w + (pyInt ((fontSize : ℚ) * max 0 (spacingH - 1))).toNat

/-- Model of the vertical step computation in
`VisibleWatermarker._tile_watermark` (`visible.py` line 174):
`step_v = tile_h + int(font_size * max(0, spacing_v_ratio - 1.0))`. -/
def step_v (tile_h fontSize : ℕ) (spacingV : ℚ) : ℕ :=
  tile_h + (pyInt ((fontSize : ℚ) * max 0 (spacingV - 1))).toNat

lemma pyInt_eq_floor {x : ℚ} (hx : 0 ≤ x) : pyInt x = ⌊x⌋ := by
  simp [pyInt, hx]

lemma step_mul_nonneg (fontSize : ℕ) (r : ℚ) : 0 ≤ (fontSize : ℚ) * max 0 (r - 1) :=
  mul_nonneg (Nat.cast_nonneg fontSize) (le_max_left 0 (r - 1))

/-- C6: both tile steps equal `tileDimension + floor(fontSize * max(0,
ratio - 1.0))` for the respective axis (the `int()` truncation in the code
is a floor because its argument is nonnegative); in particular for font
size 40, ratio 1.5 and tile width 100 the horizontal step is 120. -/
theorem C6_tile_step_formula (tileW tileH fontSize : ℕ) (spacingH spacingV : ℚ) :
    step_h tileW fontSize spacingH =
      tileW + (Int.toNat ⌊(fontSize : ℚ) * max 0 (spacingH - 1)⌋)
    ∧ step_v tileH fontSize spacingV =
      tileH + (Int.toNat ⌊(fontSize : ℚ) * max 0 (spacingV - 1)⌋)
    ∧ step_h 100 40 (3 / 2) = 120 := by
  refine ⟨?_, ?_, ?_⟩
  · rw [step_h, pyInt_eq_floor (step_mul_nonneg fontSize spacingH)]
  · rw [step_v, pyInt_eq_floor (step_mul_nonneg fontSize spacingV)]
  · rw [step_h, pyInt_eq_floor (step_mul_nonneg 40 (3 / 2))]
    norm_num
    rfl

/-! ### Preview parameter rescaling (`app/workers/preview_worker.py`) -/

/-- The scale factor computed in `PreviewWorker.run` (`preview_worker.py`
lines 326-329): `min(proxy_width / orig_width, proxy_height / orig_height)`,
modelled in exact rational arithmetic. -/
def previewScaleFactor (proxyW proxyH origW origH : ℕ) : ℚ :=
  min ((proxyW : ℚ) / (origW : ℚ)) ((proxyH : ℚ) / (origH : ℚ))

/-- Model of the preview font computation in `PreviewWorker.run`
(`preview_worker.py` line 334):
`preview_font_size = max(8, int(self.config.font_size * scale_factor))`;
Python's `int()` truncates toward zero. -/
def preview_font_size (fontSize proxyW proxyH origW origH : ℕ) : ℕ :=
  max 8 (pyInt ((fontSize : ℚ) * previewScaleFactor proxyW proxyH origW origH)).toNat

/-- The font-size formula as the specification states it, with
round-to-nearest (`round` rounds halves up; Python's bankers rounding
agrees with it on the half-integer value used in the counterexample). -/
def preview_font_size_claimed (fontSize proxyW proxyH origW origH : ℕ) : ℕ :=
  max 8 (round ((fontSize : ℚ) * previewScaleFactor proxyW proxyH origW origH)).toNat

/-- The preview configuration fields that `PreviewWorker.run` reads
(`preview_worker.py` lines 55-72). -/
structure PreviewConfigM where
  font_size : ℕ
  opacity : ℤ
  angle : ℚ
  spacingH : ℚ
  spacingV : ℚ

/-- The arguments `PreviewWorker.run` hands to
`VisibleWatermarker.process_image_object` (`preview_worker.py` lines
351-360). -/
structure RenderCall where
  size : ℕ
  opacity : ℤ
  angle : ℚ
  spacingH : ℚ
  spacingV : ℚ

/-- Model of the argument computation in `PreviewWorker.run`
(`preview_worker.py` lines 319-360): the font size is rescaled by the
proxy scale factor with a floor of 8, every other parameter is passed
through unchanged. -/
def preview_render_call (cfg : PreviewConfigM) (proxyW proxyH origW origH : ℕ) :
    RenderCall where
  size := preview_font_size cfg.font_size proxyW proxyH origW origH
  opacity := cfg.opacity
  angle := cfg.angle
  spacingH := cfg.spacingH
  spacingV := cfg.spacingV

/-- Counterexample to C5 as stated: a 3200 by 3200 original with an 800 by
800 proxy has scale factor 1/4 (exactly representable in floating point,
so the rational model agrees with the code); a requested font size of 54
gives `54 * 0.25 = 13.5`, which the code truncates to 13 while the claimed
`round` gives 14. -/
theorem C5_counterexample :
    preview_font_size 54 800 800 3200 3200 = 13
    ∧ preview_font_size_claimed 54 800 800 3200 3200 = 14
    ∧ preview_font_size 54 800 800 3200 3200 ≠
        preview_font_size_claimed 54 800 800 3200 3200 := by
  have hscale : previewScaleFactor 800 800 3200 3200 = 1 / 4 := by
    rw [previewScaleFactor]
    norm_num
  have ha : preview_font_size 54 800 800 3200 3200 = 13 := by
    rw [preview_font_size, hscale, pyInt]
    norm_num
    rfl
  have hb : preview_font_size_claimed 54 800 800 3200 3200 = 14 := by
    rw [preview_font_size_claimed, hscale, round_eq]
    norm_num
    rfl
  refine ⟨ha, hb, ?_⟩
  rw [ha, hb]
  decide

/-- C5 (amended): the preview font size is `max(8, trunc(requestedFontSize
* scaleFactor))` where `trunc` is truncation toward zero (equal to floor
here since the product is nonnegative) — not round-to-nearest; the spacing
ratios and all other parameters are passed through unrescaled; the worked
example holds: original 4000 by 3000 with proxy 800 by 600 gives scale
factor 1/5 and requested font size 50 becomes 10. -/
theorem C5_preview_scaling (cfg : PreviewConfigM) (proxyW proxyH origW origH : ℕ) :
    (preview_render_call cfg proxyW proxyH origW origH).size =
      max 8 (Int.toNat ⌊(cfg.font_size : ℚ) * previewScaleFactor proxyW proxyH origW origH⌋)
    ∧ (preview_render_call cfg proxyW proxyH origW origH).spacingH = cfg.spacingH
    ∧ (preview_render_call cfg proxyW proxyH origW origH).spacingV = cfg.spacingV
    ∧ (preview_render_call cfg proxyW proxyH origW origH).opacity = cfg.opacity
    ∧ (preview_render_call cfg proxyW proxyH origW origH).angle = cfg.angle
    ∧ previewScaleFactor 800 600 4000 3000 = 1 / 5
    ∧ preview_font_size 50 800 600 4000 3000 = 10 := by
  have hmin : ∀ a b c d : ℕ, 0 ≤ previewScaleFactor a b c d := by
    intro a b c d
    exact le_min (div_nonneg (Nat.cast_nonneg a) (Nat.cast_nonneg c))
      (div_nonneg (Nat.cast_nonneg b) (Nat.cast_nonneg d))
  have hscale : previewScaleFactor 800 600 4000 3000 = 1 / 5 := by
    rw [previewScaleFactor]
    norm_num
  refine ⟨?_, rfl, rfl, rfl, rfl, hscale, ?_⟩
  · rw [preview_render_call]
    dsimp only
    rw [preview_font_size, pyInt_eq_floor
      (mul_nonneg (Nat.cast_nonneg cfg.font_size) (hmin proxyW proxyH origW origH))]
  · rw [preview_font_size, hscale, pyInt]
    norm_num
    rfl

/-! ### Visible watermark input validation (`app/core/visible.py`) -/

/-- Whether a code point is Python whitespace, the character class stripped
by `str.strip()` with no arguments (used in `if not text or not
text.strip()`). -/
def pyIsSpace (c : Nat) : Bool :=
  decide (c ∈ ([9, 10, 11, 12, 13, 28, 29, 30, 31, 32, 0x85, 0xA0, 0x1680,
    0x2000, 0x2001, 0x2002, 0x2003, 0x2004, 0x2005, 0x2006, 0x2007, 0x2008,
    0x2009, 0x200A, 0x2028, 0x2029, 0x202F, 0x205F, 0x3000] : List Nat))

/-- The validation failures of the visible watermarker (`visible.py`). -/
inductive VisibleError : Type
  /-- Message "Watermark text cannot be empty" (lines 242-243 and 347-348). -/
  | emptyText : VisibleError
  /-- Message "Font size must be between 1 and 500" (lines 245-246). -/
  | badFontSize : VisibleError
  /-- Message "Opacity must be between 0 and 255" (lines 248-249). -/
  | badOpacity : VisibleError
deriving DecidableEq

/-- Outcome of the validation stage of a visible-watermark call: either a
raised error, or tile rendering proceeds with the given font size, opacity
and clamped spacing ratios. -/
inductive VisibleOutcome : Type
  | error (e : VisibleError) : VisibleOutcome
  | render (size opacity : ℤ) (spacingH spacingV : ℚ) : VisibleOutcome
deriving DecidableEq

/-- Spacing-ratio clamping `max(0.5, min(10.0, ratio))` (`visible.py`
lines 257-258 and 357-358). -/
def clampRatio (x : ℚ) : ℚ := max (1 / 2) (min 10 x)

/-- Model of the input validation of `VisibleWatermarker.process`
(`visible.py` lines 237-258), in source order: empty or whitespace-only
text, font size outside [1, 500], opacity outside [0, 255]; then the
spacing ratios are clamped and rendering proceeds. -/
def process_validation (text : List Nat) (size opacity : ℤ)
    (spacingH spacingV : ℚ) : VisibleOutcome :=
  if text.all (fun c => pyIsSpace c) then .error .emptyText
  else if ¬ (1 ≤ size ∧ size ≤ 500) then .error .badFontSize
  else if ¬ (0 ≤ opacity ∧ opacity ≤ 255) then .error .badOpacity
  else .render size opacity (clampRatio spacingH) (clampRatio spacingV)

/-- Model of the input validation of
`VisibleWatermarker.process_image_object` (`visible.py` lines 315-377):
only the text is checked (empty or whitespace-only); font size and opacity
are passed through to tile rendering unchecked, and the spacing ratios are
clamped exactly as in `process`. -/
def process_image_object_validation (text : List Nat) (size opacity : ℤ)
    (spacingH spacingV : ℚ) : VisibleOutcome :=
  if text.all (fun c => pyIsSpace c) then .error .emptyText
  else .render size opacity (clampRatio spacingH) (clampRatio spacingV)

/-- C10: `process_image_object` validates only that the text is non-empty
after stripping whitespace; it performs no range check on font size or
opacity, so every non-empty text proceeds to tile rendering with whatever
size and opacity it was given, and the only possible error is the
empty-text one — unlike `process`, which rejects a font size of 501 or an
opacity of 300 for the same text. -/
theorem C10_image_object_skips_range_checks (text : List Nat) (size opacity : ℤ)
    (spacingH spacingV : ℚ) :
    (¬ text.all (fun c => pyIsSpace c) = true →
      process_image_object_validation text size opacity spacingH spacingV =
        .render size opacity (clampRatio spacingH) (clampRatio spacingV))
    ∧ (∀ e, process_image_object_validation text size opacity spacingH spacingV =
          .error e →
        e = .emptyText ∧ text.all (fun c => pyIsSpace c) = true)
    ∧ (process_validation [65] 501 80 spacingH spacingV = .error .badFontSize
       ∧ process_image_object_validation [65] 501 80 spacingH spacingV =
           .render 501 80 (clampRatio spacingH) (clampRatio spacingV))
    ∧ (process_validation [65] 40 300 spacingH spacingV = .error .badOpacity
       ∧ process_image_object_validation [65] 40 300 spacingH spacingV =
           .render 40 300 (clampRatio spacingH) (clampRatio spacingV)) := by
  refine ⟨?_, ?_, ⟨?_, ?_⟩, ⟨?_, ?_⟩⟩
  · intro h
    rw [process_image_object_validation, if_neg h]
  · intro e he
    rw [process_image_object_validation] at he
    by_cases h : text.all (fun c => pyIsSpace c) = true
    · rw [if_pos h] at he
      exact ⟨by injection he with h1; exact h1.symm, h⟩
    · rw [if_neg h] at he
      exact absurd he (by simp)
  · rw [process_validation, if_neg (by decide), if_pos (by decide)]
  · rw [process_image_object_validation, if_neg (by decide)]
  · rw [process_validation, if_neg (by decide), if_neg (by decide), if_pos (by decide)]
  · rw [process_image_object_validation, if_neg (by decide)]

/-- Witness for C10: the text "A" with out-of-range font size 501 and
opacity 300 still reaches rendering through `process_image_object`. -/
theorem C10_witness :
    process_image_object_validation [65] 501 300 1 1 =
      .render 501 300 (clampRatio 1) (clampRatio 1) :=
  (C10_image_object_skips_range_checks [65] 501 300 1 1).1 (by decide)

/-! ### Proxy cache (`app/workers/preview_worker.py`, `_get_cached_proxy`) -/

/-- MAX_PROXY_CACHE_SIZE = 10 (`preview_worker.py` line 90). -/
def MAX_PROXY_CACHE_SIZE : Nat := 10

/-- Lookup in the cache, an insertion-ordered association list (Python
dicts preserve insertion order; keys are unique, so first match suffices).
Models `cache_key in _proxy_cache` / `_proxy_cache[cache_key]`. -/
def cacheLookup {K V : Type} [DecidableEq K] : List (K × V) → K → Option V
  | [], _ => none
  | (k1, v) :: rest, k => if k1 = k then some v else cacheLookup rest k

/-- Model of `_get_cached_proxy` (`preview_worker.py` lines 94-159) acting
on the cache state.  On a hit the stored value is returned and the cache
is unchanged (a hit does not refresh the entry's position).  On a miss the
freshly built proxy `fresh` is returned and inserted at the end; if the
cache already holds MAX_PROXY_CACHE_SIZE entries, the first-inserted entry
(`oldest_key = next(iter(_proxy_cache))`, lines 153-155) is deleted
first. -/
def get_cached_proxy {K V : Type} [DecidableEq K] (cache : List (K × V))
    (k : K) (fresh : V) : V × List (K × V) :=
  match cacheLookup cache k with
  | some v => (v, cache)
  | none =>
    let evicted := if MAX_PROXY_CACHE_SIZE ≤ cache.length then cache.drop 1 else cache
    (fresh, evicted ++ [(k, fresh)])

/-- Run a sequence of proxy requests (key and freshly-built value) against
a starting cache state, returning the final cache state. -/
def runCacheFrom {K V : Type} [DecidableEq K] (cache : List (K × V))
    (reqs : List (K × V)) : List (K × V) :=
  reqs.foldl (fun c r => (get_cached_proxy c r.1 r.2).2) cache

/-- Run a sequence of proxy requests against the initially empty cache. -/
def runCache {K V : Type} [DecidableEq K] (reqs : List (K × V)) : List (K × V) :=
  runCacheFrom [] reqs

lemma get_cached_proxy_length {K V : Type} [DecidableEq K]
    (cache : List (K × V)) (k : K) (fresh : V) (h : cache.length ≤ 10) :
    ((get_cached_proxy cache k fresh).2).length ≤ 10 := by
  rw [get_cached_proxy]
  cases hl : cacheLookup cache k with
  | some v => exact h
  | none =>
    dsimp only
    split_ifs with hfull
    · simp only [List.length_append, List.length_drop, List.length_cons,
        List.length_nil]
      omega
    · simp only [List.length_append, List.length_cons, List.length_nil,
        MAX_PROXY_CACHE_SIZE] at hfull ⊢
      omega

lemma runCacheFrom_length {K V : Type} [DecidableEq K] (reqs : List (K × V)) :
    ∀ cache : List (K × V), cache.length ≤ 10 → (runCacheFrom cache reqs).length ≤ 10 := by
  induction reqs with
  | nil => intro cache h; exact h
  | cons r tl ih =>
    intro cache h
    rw [runCacheFrom, List.foldl_cons]
    exact ih _ (get_cached_proxy_length cache r.1 r.2 h)

/-- C7: the proxy cache never holds more than 10 entries; a cache hit does
not change the cache (so hits do not refresh an entry's position, ruling
out LRU behaviour); and inserting an 11th distinct (path, maxDimension)
key into a full 10-entry cache evicts exactly the first-inserted key, so a
subsequent lookup of that key misses. -/
theorem C7_cache_fifo_eviction :
    (∀ reqs : List ((Nat × Nat) × Nat), (runCache reqs).length ≤ 10)
    ∧ (∀ (cache : List ((Nat × Nat) × Nat)) (k : Nat × Nat) (v fresh : Nat),
        cacheLookup cache k = some v →
        (get_cached_proxy cache k fresh).2 = cache)
    ∧ runCache ((List.range 11).map (fun i => ((i, 800), i))) =
        (List.range' 1 10).map (fun i => ((i, 800), i))
    ∧ cacheLookup (runCache ((List.range 11).map (fun i => ((i, 800), i))))
        (0, 800) = none := by
  refine ⟨?_, ?_, ?_, ?_⟩
  · intro reqs
    exact runCacheFrom_length reqs [] (by simp)
  · intro cache k v fresh h
    rw [get_cached_proxy, h]
  · decide
  · decide

/-- Witness for C7: a concrete hit leaves a one-entry cache unchanged. -/
theorem C7_witness :
    (get_cached_proxy [((3, 800), 7)] (3, 800) 9).2 = [((3, 800), 7)] :=
  C7_cache_fifo_eviction.2.1 [((3, 800), 7)] (3, 800) 7 9 (by decide)

/-! ### Debouncer (`app/workers/preview_worker.py`, `PreviewDebouncer`) -/

/-- An external stimulus to the debouncer, timestamped in milliseconds:
a `request_preview(config)` call or a `cancel()` call. -/
inductive DebEvent (α : Type) : Type
  | request (t : Nat) (c : α) : DebEvent α
  | cancel (t : Nat) : DebEvent α

/-- Model of `PreviewDebouncer` (`preview_worker.py` lines 380-433) as a
state machine driven by timestamped events.  The state couples the armed
single-shot `QTimer` deadline with `_pending_config` (the code always sets
and clears them together).  Processing an event at its timestamp first
fires the timer if it has expired by then (`_on_timeout`, lines 428-433:
emit the pending config and clear it), then handles the event:
`request_preview` (lines 409-420) stores the config and restarts the timer
a full delay from now; `cancel` (lines 422-426) stops the timer and
discards the pending config.  The second component accumulates the emitted
`preview_requested` payloads in order. -/
def debStep {α : Type} (delay : Nat) (st : Option (Nat × α) × List α)
    (e : DebEvent α) : Option (Nat × α) × List α :=
  match e, st with
  | .request t c, (some (d, p), out) =>
    if d ≤ t then (some (t + delay, c), out ++ [p])
    else (some (t + delay, c), out)
  | .request t c, (none, out) => (some (t + delay, c), out)
  | .cancel t, (some (d, p), out) =>
    if d ≤ t then (none, out ++ [p])
    else (none, out)
  | .cancel _, (none, out) => (none, out)

/-- Run the debouncer over a chronological event list, then let time run
out (a still-armed timer fires); returns the emitted configs in order. -/
def debRun {α : Type} (delay : Nat) (evs : List (DebEvent α)) : List α :=
  match evs.foldl (debStep delay) (none, []) with
  | (some (_, c), out) => out ++ [c]
  | (none, out) => out

lemma debFold_requests {α : Type} (delay : Nat) :
    ∀ (tl : List (Nat × α)) (r1 : Nat × α) (d : Nat) (c : α) (out : List α),
      r1.1 < d →
      List.Chain' (fun a b => b.1 < a.1 + delay) (r1 :: tl) →
      List.foldl (debStep delay) (some (d, c), out)
          ((r1 :: tl).map (fun r => DebEvent.request r.1 r.2)) =
        (some ((tl.getLastD r1).1 + delay, (tl.getLastD r1).2), out) := by
  intro tl
  induction tl with
  | nil =>
    intro r1 d c out hlt _
    simp only [List.map_cons, List.map_nil, List.foldl_cons, List.foldl_nil,
      List.getLastD]
    rw [debStep, if_neg (by omega)]
  | cons r2 tl2 ih =>
    intro r1 d c out hlt hchain
    rw [List.chain'_cons] at hchain
    simp only [List.map_cons, List.foldl_cons] at ih ⊢
    rw [debStep, if_neg (by omega)]
    have h2 := ih r2 (r1.1 + delay) r1.2 out hchain.1 hchain.2
    simp only [List.map_cons, List.foldl_cons] at h2
    rw [h2, List.getLastD_cons]

lemma debFold_all {α : Type} (delay : Nat) (r0 : Nat × α) (rest : List (Nat × α))
    (hchain : List.Chain' (fun a b => b.1 < a.1 + delay) (r0 :: rest)) :
    List.foldl (debStep delay) ((none : Option (Nat × α)), ([] : List α))
        ((r0 :: rest).map (fun r => DebEvent.request r.1 r.2)) =
      (some ((rest.getLastD r0).1 + delay, (rest.getLastD r0).2), []) := by
  simp only [List.map_cons, List.foldl_cons]
  rw [show debStep delay (none, []) (DebEvent.request r0.1 r0.2) =
    (some (r0.1 + delay, r0.2), []) from rfl]
  cases rest with
  | nil => simp [List.getLastD]
  | cons r1 tl =>
    rw [List.chain'_cons] at hchain
    have h := debFold_requests delay tl r1 (r0.1 + delay) r0.2 [] hchain.1 hchain.2
    simp only [List.map_cons, List.foldl_cons] at h ⊢
    rw [h, List.getLastD_cons]

/-- C8: for any nonempty burst of preview requests in which each request
arrives strictly less than one delay after its predecessor (so every
request lands inside the previous one's debounce window), exactly one
downstream trigger fires after the quiet period, carrying the last
request's configuration — the earlier requests are dropped without ever
being emitted; and a `cancel()` arriving before the armed timer expires
suppresses the trigger entirely. -/
theorem C8_debounce_latest_wins (α : Type) (delay : Nat) (r0 : Nat × α)
    (rest : List (Nat × α))
    (hchain : List.Chain' (fun a b => b.1 < a.1 + delay) (r0 :: rest)) :
    debRun delay ((r0 :: rest).map (fun r => DebEvent.request r.1 r.2)) =
      [(rest.getLastD r0).2]
    ∧ (∀ tc, tc < (rest.getLastD r0).1 + delay →
        debRun delay (((r0 :: rest).map (fun r => DebEvent.request r.1 r.2))
          ++ [DebEvent.cancel tc]) = []) := by
  constructor
  · rw [debRun, debFold_all delay r0 rest hchain]
    rfl
  · intro tc htc
    rw [debRun, List.foldl_append, debFold_all delay r0 rest hchain]
    simp only [List.foldl_cons, List.foldl_nil]
    rw [debStep, if_neg (by omega)]

/-- Witness for C8: two requests 10 ms apart under a 50 ms delay produce
exactly the second request's payload, and a cancel at 59 ms (before the 60
ms deadline) produces nothing. -/
theorem C8_witness :
    debRun 50 [DebEvent.request 0 1, DebEvent.request 10 2] = [2]
    ∧ debRun 50 [DebEvent.request 0 1, DebEvent.request 10 2,
        DebEvent.cancel 59] = ([] : List Nat) := by
  have h := C8_debounce_latest_wins Nat 50 (0, 1) [(10, 2)]
    (List.chain'_cons.mpr ⟨by omega, List.chain'_singleton _⟩)
  constructor
  · have h1 := h.1
    simpa using h1
  · have h2 := h.2 59 (by simp [List.getLastD])
    simpa using h2

end NightCat
